import Mathlib

set_option maxRecDepth 4000

/-!
# Verification of the DS4432 dual-channel current-DAC driver

Shallow embedding of the driver (`src/lib.rs`, `src/error.rs`): the status
codec (raw register byte to `Status` and back), the current conversion
(IEEE-754 `f32`/`f64` arithmetic modelled exactly by rationals with
round-to-nearest-even), the Rfs validation at construction, and the device
session operations (`set_status`, `status`, `release`, `destroy`) with an
explicit trace of the bus transactions they issue.
-/

/-! ## Exact model of IEEE-754 binary floating point

A floating-point value is NaN, a signed infinity, or a finite value given by
the exact rational it denotes.  Signed zeros are not distinguished (the
driver never observes the sign of a zero).
-/

/-- An IEEE-754 floating-point datum: NaN, infinity (`true` = negative), or a
finite value given exactly as a rational. -/
inductive Fl where
  | nan : Fl
  | inf : Bool → Fl
  | fin : ℚ → Fl
deriving DecidableEq

/-- Parameters of a binary floating-point format: precision in bits, the
minimal ulp exponent (subnormal scale), and the largest finite value. -/
structure FpFormat where
  prec : ℕ
  eminUlp : ℤ
  maxFin : ℚ

/-- IEEE-754 binary32 (`f32`): 24-bit precision, subnormal ulp `2^(-149)`. -/
def fmt32 : FpFormat :=
  ⟨24, -149, mkRat 340282346638528859811704183484516925440 1⟩

/-- IEEE-754 binary64 (`f64`): 53-bit precision, subnormal ulp `2^(-1074)`.
The largest finite value is spelled as a literal (certified by
`fmt64_maxFin_eq` below) so that it evaluates without large
exponentiations. -/
def fmt64 : FpFormat :=
  ⟨53, -1074, mkRat 179769313486231570814527423731704356798070567525844996598917476803157260780028538760589558632766878171540458953514382464234321326889464182768467546703537516986049910576551282076245490090389328944075868508455133942304583236903222948165808559332123348274797826204144723168738177180919299881250404026184124858368 1⟩

/-- Exact multiplication of rationals, written through `mkRat` so that it
evaluates inside the kernel (the library's field operations on `ℚ` are
irreducible).  `qmul_eq_mul` below proves it agrees with `*`. -/
def qmul (a b : ℚ) : ℚ := mkRat (a.num * b.num) (a.den * b.den)

/-- Exact division of rationals through `mkRat` (0 on a zero divisor, like
the library's `/`).  `qdiv_eq_div` below proves it agrees with `/`. -/
def qdiv (a b : ℚ) : ℚ :=
  if 0 ≤ b.num then mkRat (a.num * b.den) (a.den * b.num.toNat)
  else mkRat (-(a.num * b.den)) (a.den * (-b.num).toNat)

/-- `2 ^ e` as a rational, for an integer exponent. -/
def pow2 : ℤ → ℚ
  | .ofNat n => mkRat ((2 ^ n : ℕ) : ℤ) 1
  | .negSucc n => mkRat 1 (2 ^ (n + 1))

/-- Fuelled floor of the base-2 logarithm of a natural number (`lg2 n n` is
`⌊log₂ n⌋` for `n ≥ 1`). -/
def lg2 : ℕ → ℕ → ℕ
  | 0, _ => 0
  | fuel + 1, n => if n ≤ 1 then 0 else lg2 fuel (n / 2) + 1

/-- Fuelled ceiling of the base-2 logarithm of a natural number (`clg2 n n`
is `⌈log₂ n⌉` for `n ≥ 1`). -/
def clg2 : ℕ → ℕ → ℕ
  | 0, _ => 0
  | fuel + 1, n => if n ≤ 1 then 0 else clg2 fuel ((n + 1) / 2) + 1

/-- `⌊log₂ |q|⌋` for a nonzero rational `q`.  For `|q| < 1` this is
`-⌈log₂ (1/|q|)⌉`, computed on the numerator and denominator. -/
def floorLog2 (q : ℚ) : ℤ :=
  if 1 ≤ |q| then (lg2 ⌊|q|⌋.toNat ⌊|q|⌋.toNat : ℤ)
  else
    let a := |q|.num.toNat
    let b := |q|.den
    let c := (b + a - 1) / a
    Neg.neg (clg2 c c : ℤ)

/-- Round a rational to the nearest integer, ties to even. -/
def rndNE (x : ℚ) : ℤ :=
  let n := ⌊x⌋
  let frac := mkRat (x.num - n * (x.den : ℤ)) x.den
  if frac < mkRat 1 2 then n
  else if mkRat 1 2 < frac then n + 1
  else if n % 2 = 0 then n else n + 1

/-- Round an exact rational to a floating-point datum of the given format,
IEEE round-to-nearest-even, with gradual underflow and overflow to
infinity. -/
def roundFin (fmt : FpFormat) (q : ℚ) : Fl :=
  if q = 0 then .fin 0
  else
    let e : ℤ := max fmt.eminUlp (floorLog2 q - (fmt.prec - 1 : ℕ))
    let m : ℤ := rndNE (qdiv |q| (pow2 e))
    let r : ℚ := qmul (m : ℚ) (pow2 e)
    if fmt.maxFin < r then .inf (decide (q < 0))
    else .fin (if q < 0 then -r else r)

/-- IEEE-754 multiplication in the given format. -/
def fMul (fmt : FpFormat) : Fl → Fl → Fl
  | .nan, _ => .nan
  | _, .nan => .nan
  | .inf s, .inf t => .inf (xor s t)
  | .inf s, .fin q => if q = 0 then .nan else .inf (xor s (decide (q < 0)))
  | .fin q, .inf s => if q = 0 then .nan else .inf (xor s (decide (q < 0)))
  | .fin a, .fin b => roundFin fmt (qmul a b)

/-- IEEE-754 division in the given format. -/
def fDiv (fmt : FpFormat) : Fl → Fl → Fl
  | .nan, _ => .nan
  | _, .nan => .nan
  | .inf _, .inf _ => .nan
  | .inf s, .fin q => .inf (xor s (decide (q < 0)))
  | .fin _, .inf _ => .fin 0
  | .fin a, .fin b =>
    if b = 0 then (if a = 0 then .nan else .inf (decide (a < 0)))
    else roundFin fmt (qdiv a b)

/-- Narrowing conversion `f64` to `f32` (Rust `as f32`): re-round the finite
value into binary32. -/
def f64ToF32 : Fl → Fl
  | .nan => .nan
  | .inf s => .inf s
  | .fin q => roundFin fmt32 q

/-- Rust's saturating cast `f32 as u8`: NaN to 0, truncation toward zero
clamped into `0..=255`. -/
def f32AsU8 : Fl → ℕ
  | .nan => 0
  | .inf s => if s then 0 else 255
  | .fin q => if q ≤ 0 then 0 else min 255 ⌊q⌋.toNat

/-- Rust `u32 as f32` (rounds: a `u32` need not be representable in 24
bits). -/
def natToF32 (n : ℕ) : Fl := roundFin fmt32 (mkRat (n : ℤ) 1)

/-- A Rust floating-point literal: the decimal value rounded to the nearest
binary32. -/
def f32Lit (q : ℚ) : Fl := roundFin fmt32 q

/-- The scaling constant `62_312.5` of the driver, exactly representable in
binary32 (and binary64). -/
def const62312_5 : Fl := .fin (mkRat 124625 2)

/-! ## The driver (`src/error.rs`, `src/lib.rs`)

`u8` values are modelled as `ℕ` (the claims bound them by 255 where it
matters), `u32` values as `ℕ`.  The I2C bus is the driver's type parameter
`I` together with the trait methods `write` / `write_read`, modelled as an
explicit record of response functions; each driver operation additionally
returns the list of bus transactions it issued, so that "no bus write
happens" is a statement about that trace.  The `trace!`/`debug!` logging
macros of the source are no-ops and are not modelled. -/

/-- `error.rs`: the driver error type, generic over the bus error `E`. -/
inductive Error (E : Type) where
  | I2c : E → Error E
  | InvalidCode : ℕ → Error E
  | InvalidIout : Error E
  | InvalidRfs : Error E
  | UnknownRfs : Error E
deriving DecidableEq

/-- `lib.rs`: an output controllable by the DS4432 (`#{repr(u8)}`:
`Zero = 0xF8`, `One = 0xF9`). -/
inductive Output where
  | Zero : Output
  | One : Output
deriving DecidableEq

/-- `impl From<Output> for u8` (the `repr(u8)` discriminant). -/
def Output.toU8 : Output → ℕ
  | .Zero => 0xF8
  | .One => 0xF9

/-- `lib.rs`: the status of an output. -/
inductive Status where
  | Disable : Status
  | Sink : ℕ → Status
  | SinkMicroAmp : Fl → Status
  | Source : ℕ → Status
  | SourceMicroAmp : Fl → Status
deriving DecidableEq

/-- `Status::code`. -/
def Status.code : Status → Option ℕ
  | .Sink c => some c
  | .Source c => some c
  | .Disable => some 0
  | _ => none

/-- `Status::current_ua`: `((62_312.5 * code as f64) / (rfs_ohm as f64)) as
f32`.  A `u8` code and a `u32` resistance are exactly representable in
binary64, so the two `as f64` casts are the exact embeddings. -/
def Status.current_ua (s : Status) (rfs_ohm : ℕ) : Option Fl :=
  s.code.map fun code =>
    f64ToF32 (fDiv fmt64 (fMul fmt64 (.fin (mkRat 124625 2)) (.fin (mkRat (code : ℤ) 1)))
      (.fin (mkRat (rfs_ohm : ℤ) 1)))

/-- `impl From<u8> for Status`: decode a raw register byte. -/
def Status.fromU8 (value : ℕ) : Status :=
  let sourcing : Bool := value &&& 0x80 == 0x80
  let code := value &&& 0x7F
  match sourcing, code with
  | true, 0 => .Disable
  | false, 0 => .Disable
  | true, c => .Source c
  | false, c => .Sink c

/-- The DS4432's fixed I2C slave address `0b1001000`. -/
def SLAVE_ADDRESS : ℕ := 0b1001000

/-- Strict Rfs policy bound (`RECOMMENDED_RFS_MIN`). -/
def RECOMMENDED_RFS_MIN : ℕ := 40000

/-- Strict Rfs policy bound (`RECOMMENDED_RFS_MAX`). -/
def RECOMMENDED_RFS_MAX : ℕ := 160000

/-- The build-time choice of Rfs validation policy: `recommended` is the
default build, `notRecommended` is the `not-recommended-rfs` feature. -/
inductive RfsPolicy where
  | recommended : RfsPolicy
  | notRecommended : RfsPolicy
deriving DecidableEq

/-- The embedded-hal trait methods the driver requires of its bus type `I`:
`write` and `write_read` (the latter reading exactly one byte here), as
pure response functions. -/
structure I2cImpl (I : Type) (E : Type) where
  write : I → ℕ → List ℕ → Except E Unit
  writeRead : I → ℕ → List ℕ → Except E ℕ

/-- One bus transaction, as recorded in an operation's trace. -/
inductive BusOp where
  | write : ℕ → List ℕ → BusOp
  | writeRead : ℕ → List ℕ → ℕ → BusOp
deriving DecidableEq

/-- `lib.rs`: the DS4432 driver struct — the owned bus handle and the two
optional per-channel Rfs values (ohms). -/
structure DS4432 (I : Type) where
  i2c : I
  rfs0_ohm : Option ℕ
  rfs1_ohm : Option ℕ

/-- One iteration of the validation loop in `with_rfs`: check one optional
Rfs value against the compiled-in policy. -/
def validateRfs (policy : RfsPolicy) (rfs_ohm : Option ℕ) : Except (Error E) Unit :=
  match rfs_ohm with
  | some rfs =>
    match policy with
    | .notRecommended => if rfs = 0 then .error .InvalidRfs else .ok ()
    | .recommended =>
      if rfs < RECOMMENDED_RFS_MIN ∨ RECOMMENDED_RFS_MAX < rfs then .error .InvalidRfs
      else .ok ()
  | none => .ok ()

/-- `DS4432::with_rfs`: validate both optional Rfs values (channel 0 first,
unrolling the source's `for rfs_ohm in [rfs0_ohm, rfs1_ohm]` loop), then
store them with the bus handle. -/
def DS4432.with_rfs (policy : RfsPolicy) (i2c : I) (rfs0_ohm rfs1_ohm : Option ℕ) :
    Except (Error E) (DS4432 I) :=
  match validateRfs (E := E) policy rfs0_ohm with
  | .error e => .error e
  | .ok _ =>
    match validateRfs (E := E) policy rfs1_ohm with
    | .error e => .error e
    | .ok _ => .ok ⟨i2c, rfs0_ohm, rfs1_ohm⟩

/-- `DS4432::new = with_rfs(i2c, None, None).unwrap()`.  The error branch
models the `unwrap` panic; it is proved unreachable (claim C9). -/
def DS4432.new (policy : RfsPolicy) (i2c : I) : DS4432 I :=
  match DS4432.with_rfs (E := Unit) policy i2c none none with
  | .ok d => d
  | .error _ => ⟨i2c, none, none⟩

/-- The `let value = match status { ... }` block of `DS4432::set_status`:
compute the raw byte to write, or fail (the source's early `return Err`s
become `Except.error`). -/
def encodeStatus (rfs0_ohm rfs1_ohm : Option ℕ) (output : Output) (status : Status) :
    Except (Error E) ℕ :=
  match status with
  | .Disable | .Sink 0 | .Source 0 => .ok 0
  | .Sink code =>
    if 127 < code then .error (.InvalidCode code) else .ok code
  | .Source code =>
    if 127 < code then .error (.InvalidCode code)
    else .ok (code ||| 0x80)
  | .SinkMicroAmp current =>
    match (match output with | .Zero => rfs0_ohm | .One => rfs1_ohm) with
    | none => .error .UnknownRfs
    | some rfs =>
      .ok (f32AsU8 (fDiv fmt32 (fMul fmt32 current (natToF32 rfs)) const62312_5))
  | .SourceMicroAmp current =>
    match (match output with | .Zero => rfs0_ohm | .One => rfs1_ohm) with
    | none => .error .UnknownRfs
    | some rfs =>
      .ok (f32AsU8 (fDiv fmt32 (fMul fmt32 current (natToF32 rfs)) const62312_5) ||| 0x80)

/-- `DS4432::set_status`: encode the status to a raw byte (possibly failing
before any bus traffic), then issue the single write
`[register, value]`. -/
def DS4432.set_status (impl : I2cImpl I E) (d : DS4432 I) (output : Output)
    (status : Status) : Except (Error E) Unit × List BusOp :=
  let reg := Output.toU8 output
  match encodeStatus (E := E) d.rfs0_ohm d.rfs1_ohm output status with
  | .error e => (.error e, [])
  | .ok value =>
    match impl.write d.i2c SLAVE_ADDRESS [reg, value] with
    | .ok _ => (.ok (), [.write SLAVE_ADDRESS [reg, value]])
    | .error e => (.error (.I2c e), [.write SLAVE_ADDRESS [reg, value]])

/-- Rust's `Option::unwrap` on the `current_ua` results inside
`DS4432::status`; the `none` branch models the panic and is proved
unreachable (claim C9). -/
def unwrapUA : Option Fl → Fl
  | some v => v
  | none => .nan

/-- `DS4432::status`: one `write_read` transaction, decode the byte, then —
if an Rfs value is configured for the chosen output — resolve the code into
a current. -/
def DS4432.status (impl : I2cImpl I E) (d : DS4432 I) (output : Output) :
    Except (Error E) Status × List BusOp :=
  let reg := Output.toU8 output
  match impl.writeRead d.i2c SLAVE_ADDRESS [reg] with
  | .error e => (.error (.I2c e), [.writeRead SLAVE_ADDRESS [reg] 1])
  | .ok b =>
    let status := Status.fromU8 b
    let resolved :=
      match output with
      | .Zero =>
        match d.rfs0_ohm with
        | some rfs =>
          match status with
          | .Sink code => Status.SinkMicroAmp (unwrapUA ((Status.Sink code).current_ua rfs))
          | .Source code => Status.SourceMicroAmp (unwrapUA ((Status.Source code).current_ua rfs))
          | _ => status
        | none => status
      | .One =>
        match d.rfs1_ohm with
        | some rfs =>
          match status with
          | .Sink code => Status.SinkMicroAmp (unwrapUA ((Status.Sink code).current_ua rfs))
          | .Source code => Status.SourceMicroAmp (unwrapUA ((Status.Source code).current_ua rfs))
          | _ => status
        | none => status
    (.ok resolved, [.writeRead SLAVE_ADDRESS [reg] 1])

/-- `DS4432::release`: return the underlying I2C device. -/
def DS4432.release (d : DS4432 I) : I := d.i2c

/-- `DS4432::destroy`: documented as "Destroys this driver and releases the
I2C bus", but its body is `self` — it returns the whole session value, not
the bus handle. -/
def DS4432.destroy (d : DS4432 I) : DS4432 I := d

/-! ## Correctness of the kernel-friendly rational operations -/

/-- A rational equals its numerator divided by its denominator, in product
form. -/
lemma num_eq_mul_den (a : ℚ) : (a.num : ℚ) = a * (a.den : ℚ) :=
  (div_eq_iff (by exact_mod_cast a.den_ne_zero)).mp (Rat.num_div_den a)

/-- The `mkRat`-based multiplication agrees with the field multiplication
on `ℚ`. -/
lemma qmul_eq_mul (a b : ℚ) : qmul a b = a * b := by
  have ha : ((a.den : ℚ)) ≠ 0 := by exact_mod_cast a.den_ne_zero
  have hb : ((b.den : ℚ)) ≠ 0 := by exact_mod_cast b.den_ne_zero
  rw [qmul, Rat.mkRat_eq_div]
  push_cast
  rw [div_eq_iff (mul_ne_zero ha hb), num_eq_mul_den, num_eq_mul_den]
  ring

/-- The `mkRat`-based division agrees with the field division on `ℚ`
(both return 0 on a zero divisor). -/
lemma qdiv_eq_div (a b : ℚ) : qdiv a b = a / b := by
  rcases eq_or_ne b 0 with rfl | hb0
  · simp [qdiv]
  · have hbn : b.num ≠ 0 := Rat.num_ne_zero.mpr hb0
    have ha : ((a.den : ℚ)) ≠ 0 := by exact_mod_cast a.den_ne_zero
    have hbq : ((b.num : ℚ)) ≠ 0 := by exact_mod_cast hbn
    rcases hbn.lt_or_lt with h | h
    · rw [qdiv, if_neg (not_le.mpr h), Rat.mkRat_eq_div]
      push_cast
      have h1 : (((-b.num).toNat : ℕ) : ℚ) = -(b.num : ℚ) := by
        exact_mod_cast Int.toNat_of_nonneg (by omega : (0:ℤ) ≤ -b.num)
      rw [h1, div_eq_div_iff (mul_ne_zero ha (neg_ne_zero.mpr hbq)) hb0,
        num_eq_mul_den a, num_eq_mul_den b]
      ring
    · rw [qdiv, if_pos h.le, Rat.mkRat_eq_div]
      push_cast
      have h1 : ((b.num.toNat : ℕ) : ℚ) = (b.num : ℚ) := by
        exact_mod_cast Int.toNat_of_nonneg h.le
      rw [h1, div_eq_div_iff (mul_ne_zero ha hbq) hb0, num_eq_mul_den a, num_eq_mul_den b]
      ring

/-- The binary32 largest-finite literal is `(2^24 - 1) * 2^104`. -/
lemma fmt32_maxFin_eq : fmt32.maxFin = ((2 ^ 24 - 1) * 2 ^ 104 : ℚ) := by
  rw [fmt32, Rat.mkRat_one]; norm_num

/-- The binary64 largest-finite literal is `(2^53 - 1) * 2^971`. -/
lemma fmt64_maxFin_eq : fmt64.maxFin = ((2 ^ 53 - 1) * 2 ^ 971 : ℚ) := by
  rw [fmt64, Rat.mkRat_one]; norm_num

/-- Rounding the exact value 0 gives the floating-point 0. -/
lemma roundFin_zero (fmt : FpFormat) : roundFin fmt 0 = .fin 0 := by
  simp [roundFin]

/-! ## Spec-side definitions (named after §4.2 of the specification) -/

/-- Spec §4.2 `code_to_current(code, rfs)`: the same binary64 computation
as `Status::current_ua`, on a bare code. -/
def code_to_current (code rfs : ℕ) : Fl :=
  f64ToF32 (fDiv fmt64 (fMul fmt64 (.fin (mkRat 124625 2)) (.fin (mkRat (code : ℤ) 1)))
    (.fin (mkRat (rfs : ℤ) 1)))

/-- Spec §4.2 `current_to_code(current, rfs)`: the binary32 computation of
the current-based `set_status` arms, `((current * rfs as f32) / 62_312.5)
as u8`. -/
def current_to_code (current : Fl) (rfs : ℕ) : ℕ :=
  f32AsU8 (fDiv fmt32 (fMul fmt32 current (natToF32 rfs)) const62312_5)

/-- Spec §4.2: resolution of a decoded status against an optionally
configured Rfs, for reporting by `status`. -/
def resolveStatus : Option ℕ → Status → Status
  | none, s => s
  | some r, .Sink c => .SinkMicroAmp (code_to_current c r)
  | some r, .Source c => .SourceMicroAmp (code_to_current c r)
  | some _, s => s

/-- The Rfs value the driver consults for an output (the repeated
`match output` of the source). -/
def DS4432.rfsFor (d : DS4432 I) : Output → Option ℕ
  | .Zero => d.rfs0_ohm
  | .One => d.rfs1_ohm

/-- Truncation toward zero of a rational (the rounding mode of Rust's
float-to-integer `as` casts). -/
def ftrunc (q : ℚ) : ℤ := if q < 0 then -⌊-q⌋ else ⌊q⌋

/-- A trivial bus for concrete witnesses: every write is accepted, every
read returns `0xAA`. -/
def busOk : I2cImpl Unit Unit := ⟨fun _ _ _ => .ok (), fun _ _ _ => .ok 0xAA⟩

/-! ## Helper lemmas about the driver -/

lemma encodeStatus_Disable (r0 r1 : Option ℕ) (out : Output) :
    encodeStatus (E := E) r0 r1 out .Disable = .ok 0 := rfl

lemma encodeStatus_Sink (r0 r1 : Option ℕ) (out : Output) (c : ℕ) :
    encodeStatus (E := E) r0 r1 out (.Sink c) =
      if c = 0 then .ok 0
      else if 127 < c then .error (.InvalidCode c) else .ok c := by
  match c with
  | 0 => rfl
  | c + 1 => rfl

lemma encodeStatus_Source (r0 r1 : Option ℕ) (out : Output) (c : ℕ) :
    encodeStatus (E := E) r0 r1 out (.Source c) =
      if c = 0 then .ok 0
      else if 127 < c then .error (.InvalidCode c) else .ok (c ||| 0x80) := by
  match c with
  | 0 => rfl
  | c + 1 => rfl

lemma encodeStatus_SinkMicroAmp (r0 r1 : Option ℕ) (out : Output) (cur : Fl) :
    encodeStatus (E := E) r0 r1 out (.SinkMicroAmp cur) =
      match (match out with | .Zero => r0 | .One => r1) with
      | none => .error .UnknownRfs
      | some rfs => .ok (current_to_code cur rfs) := rfl

lemma encodeStatus_SourceMicroAmp (r0 r1 : Option ℕ) (out : Output) (cur : Fl) :
    encodeStatus (E := E) r0 r1 out (.SourceMicroAmp cur) =
      match (match out with | .Zero => r0 | .One => r1) with
      | none => .error .UnknownRfs
      | some rfs => .ok (current_to_code cur rfs ||| 0x80) := rfl

lemma set_status_error (impl : I2cImpl I E) (d : DS4432 I) (out : Output) (st : Status)
    (e : Error E) (h : encodeStatus (E := E) d.rfs0_ohm d.rfs1_ohm out st = .error e) :
    d.set_status impl out st = (.error e, []) := by
  simp [DS4432.set_status, h]

lemma set_status_ok (impl : I2cImpl I E) (d : DS4432 I) (out : Output) (st : Status)
    (v : ℕ) (h : encodeStatus (E := E) d.rfs0_ohm d.rfs1_ohm out st = .ok v) :
    d.set_status impl out st =
      match impl.write d.i2c SLAVE_ADDRESS [out.toU8, v] with
      | .ok _ => (.ok (), [.write SLAVE_ADDRESS [out.toU8, v]])
      | .error e => (.error (.I2c e), [.write SLAVE_ADDRESS [out.toU8, v]]) := by
  simp [DS4432.set_status, h]

lemma f32AsU8_le_255 (f : Fl) : f32AsU8 f ≤ 255 := by
  cases f with
  | nan => simp [f32AsU8]
  | inf s => cases s <;> simp [f32AsU8]
  | fin q =>
    by_cases h : q ≤ 0
    · simp [f32AsU8, h]
    · simp only [f32AsU8, if_neg h]
      exact min_le_left _ _

lemma validateRfs_rec_ok (o : Option ℕ) :
    validateRfs (E := E) .recommended o = .ok ()
      ↔ ∀ r, o = some r → 40000 ≤ r ∧ r ≤ 160000 := by
  cases o with
  | none => simp [validateRfs]
  | some r =>
    simp only [validateRfs, RECOMMENDED_RFS_MIN, RECOMMENDED_RFS_MAX]
    split_ifs with h
    · simp only [reduceCtorEq, false_iff]
      intro hall
      have := hall r rfl
      omega
    · simp only [true_iff]
      intro r' hr'
      cases Option.some.inj hr'
      omega

lemma validateRfs_perm_ok (o : Option ℕ) :
    validateRfs (E := E) .notRecommended o = .ok () ↔ ∀ r, o = some r → r ≠ 0 := by
  cases o with
  | none => simp [validateRfs]
  | some r =>
    simp only [validateRfs]
    split_ifs with h
    · simp only [reduceCtorEq, false_iff]
      intro hall
      exact hall r rfl h
    · simp only [true_iff]
      intro r' hr'
      cases Option.some.inj hr'
      exact h

lemma validateRfs_cases (policy : RfsPolicy) (o : Option ℕ) :
    validateRfs (E := E) policy o = .ok ()
      ∨ validateRfs (E := E) policy o = .error .InvalidRfs := by
  cases o with
  | none => left; rfl
  | some r => cases policy <;> simp only [validateRfs] <;> split_ifs <;> simp

lemma with_rfs_ok_iff (policy : RfsPolicy) (i2c : I) (r0 r1 : Option ℕ) :
    DS4432.with_rfs (E := E) policy i2c r0 r1 = .ok ⟨i2c, r0, r1⟩
      ↔ (validateRfs (E := E) policy r0 = .ok ()
          ∧ validateRfs (E := E) policy r1 = .ok ()) := by
  rcases hv0 : validateRfs (E := E) policy r0 with e | u
  · simp [DS4432.with_rfs, hv0]
  · rcases hv1 : validateRfs (E := E) policy r1 with e | u'
    · simp [DS4432.with_rfs, hv0, hv1]
    · simp [DS4432.with_rfs, hv0, hv1]

lemma with_rfs_error (policy : RfsPolicy) (i2c : I) (r0 r1 : Option ℕ)
    (h : ¬(validateRfs (E := E) policy r0 = .ok ()
        ∧ validateRfs (E := E) policy r1 = .ok ())) :
    DS4432.with_rfs (E := E) policy i2c r0 r1 = .error .InvalidRfs := by
  rcases validateRfs_cases (E := E) policy r0 with hv0 | hv0
  · rcases validateRfs_cases (E := E) policy r1 with hv1 | hv1
    · exact absurd ⟨hv0, hv1⟩ h
    · simp [DS4432.with_rfs, hv0, hv1]
  · simp [DS4432.with_rfs, hv0]

/-! ## Claims -/

/-- C1: codec round-trip.  For every code `c` in `1..=127` and direction
`dir`, encoding the status decoded from the byte `c ||| (dir ? 0x80 : 0)`
yields that same byte; and for every `c` in `0..=127`, decoding the
successful encoding of `Sink c` yields `Disable` when `c = 0` and `Sink c`
otherwise, likewise for `Source c`. -/
theorem C1_codec_round_trip :
    (∀ (E : Type) (r0 r1 : Option ℕ) (out : Output) (c : ℕ), 1 ≤ c → c ≤ 127 →
      ∀ dir : Bool,
        encodeStatus (E := E) r0 r1 out (Status.fromU8 (c ||| (if dir then 0x80 else 0)))
          = .ok (c ||| (if dir then 0x80 else 0)))
    ∧ (∀ (E : Type) (r0 r1 : Option ℕ) (out : Output) (c : ℕ), c ≤ 127 →
        (encodeStatus (E := E) r0 r1 out (.Sink c)).map Status.fromU8
            = .ok (if c = 0 then .Disable else .Sink c)
        ∧ (encodeStatus (E := E) r0 r1 out (.Source c)).map Status.fromU8
            = .ok (if c = 0 then .Disable else .Source c)) := by
  have hdec : ∀ c, c < 128 →
      (1 ≤ c → Status.fromU8 c = Status.Sink c
        ∧ Status.fromU8 (c + 128) = Status.Source c ∧ c ||| 128 = c + 128)
      ∧ c ||| 0 = c := by decide
  constructor
  · intro E r0 r1 out c h1 h2 dir
    have hb := (hdec c (by omega)).1 h1
    cases dir with
    | true =>
      simp only [eq_self_iff_true, if_true]
      rw [hb.2.2, hb.2.1, encodeStatus_Source, if_neg (by omega), if_neg (by omega)]
      rw [hb.2.2]
    | false =>
      simp only [Bool.false_eq_true, if_false]
      rw [(hdec c (by omega)).2, hb.1, encodeStatus_Sink,
        if_neg (by omega), if_neg (by omega)]
  · intro E r0 r1 out c hc
    constructor
    · rw [encodeStatus_Sink]
      by_cases h0 : c = 0
      · subst h0; rfl
      · have hb := (hdec c (by omega)).1 (by omega)
        rw [if_neg h0, if_neg (by omega), if_neg h0]
        simp only [Except.map]
        rw [hb.1]
    · rw [encodeStatus_Source]
      by_cases h0 : c = 0
      · subst h0; rfl
      · have hb := (hdec c (by omega)).1 (by omega)
        rw [if_neg h0, if_neg (by omega), if_neg h0]
        simp only [Except.map]
        rw [hb.2.2, hb.2.1]

theorem C1_codec_round_trip_witness :
    encodeStatus (E := Unit) none none Output.Zero (Status.fromU8 (42 ||| 0x80))
        = .ok (42 ||| 0x80)
    ∧ (encodeStatus (E := Unit) none none Output.Zero (.Sink 42)).map Status.fromU8
        = .ok (.Sink 42) := by
  constructor
  · have h := C1_codec_round_trip.1 Unit none none Output.Zero 42 (by decide) (by decide) true
    simpa using h
  · have h := (C1_codec_round_trip.2 Unit none none Output.Zero 42 (by decide)).1
    simpa using h

/-- C4: decoding treats magnitude 0 as `Disable` regardless of the
direction bit — `0x00` and `0x80` both decode to `Disable`, and they are
the only two bytes that do. -/
theorem C4_decode_zero_magnitude :
    Status.fromU8 0x00 = .Disable ∧ Status.fromU8 0x80 = .Disable
    ∧ ∀ b, b < 256 → Status.fromU8 b = .Disable → b = 0 ∨ b = 0x80 := by
  refine ⟨rfl, rfl, ?_⟩
  decide

theorem C4_decode_zero_magnitude_witness : (0x80 : ℕ) = 0 ∨ (0x80 : ℕ) = 0x80 :=
  C4_decode_zero_magnitude.2.2 0x80 (by decide) (by decide)

/-- C5: a code-based status with code above 127 fails with
`InvalidCode code` on every channel (in particular `Sink 128` and
`Source 200`), and `Disable`, `Sink 0`, `Source 0` all encode to the byte
`0x00`. -/
theorem C5_invalid_code_and_zero_byte :
    (∀ (I E : Type) (impl : I2cImpl I E) (d : DS4432 I) (out : Output) (c : ℕ),
        128 ≤ c → c ≤ 255 →
        (d.set_status impl out (.Sink c)).1 = .error (.InvalidCode c)
        ∧ (d.set_status impl out (.Source c)).1 = .error (.InvalidCode c))
    ∧ (∀ (E : Type) (r0 r1 : Option ℕ) (out : Output),
        encodeStatus (E := E) r0 r1 out (.Sink 128) = .error (.InvalidCode 128)
        ∧ encodeStatus (E := E) r0 r1 out (.Source 200) = .error (.InvalidCode 200)
        ∧ encodeStatus (E := E) r0 r1 out .Disable = .ok 0
        ∧ encodeStatus (E := E) r0 r1 out (.Sink 0) = .ok 0
        ∧ encodeStatus (E := E) r0 r1 out (.Source 0) = .ok 0) := by
  constructor
  · intro I E impl d out c h1 h2
    constructor
    · have henc : encodeStatus (E := E) d.rfs0_ohm d.rfs1_ohm out (.Sink c)
          = .error (.InvalidCode c) := by
        rw [encodeStatus_Sink, if_neg (by omega), if_pos (by omega)]
      rw [set_status_error impl d out _ _ henc]
    · have henc : encodeStatus (E := E) d.rfs0_ohm d.rfs1_ohm out (.Source c)
          = .error (.InvalidCode c) := by
        rw [encodeStatus_Source, if_neg (by omega), if_pos (by omega)]
      rw [set_status_error impl d out _ _ henc]
  · intro E r0 r1 out
    exact ⟨rfl, rfl, rfl, rfl, rfl⟩

theorem C5_invalid_code_and_zero_byte_witness :
    ((⟨(), none, none⟩ : DS4432 Unit).set_status busOk .Zero (.Sink 200)).1
      = .error (.InvalidCode 200) :=
  (C5_invalid_code_and_zero_byte.1 Unit Unit busOk ⟨(), none, none⟩ .Zero 200
    (by decide) (by decide)).1

/-- C2: whenever `set_status` returns `InvalidCode` or `UnknownRfs`, its
bus-transaction trace is empty — the validation error precedes any bus
write. -/
theorem C2_validation_error_means_no_bus_write :
    ∀ (I E : Type) (impl : I2cImpl I E) (d : DS4432 I) (out : Output) (st : Status),
      ((∃ c, (d.set_status impl out st).1 = .error (.InvalidCode c))
        ∨ (d.set_status impl out st).1 = .error .UnknownRfs) →
      (d.set_status impl out st).2 = [] := by
  intro I E impl d out st h
  rcases henc : encodeStatus (E := E) d.rfs0_ohm d.rfs1_ohm out st with e | v
  · rw [set_status_error impl d out st e henc]
  · exfalso
    rw [set_status_ok impl d out st v henc] at h
    rcases hw : impl.write d.i2c SLAVE_ADDRESS [out.toU8, v] with e' | u <;>
      rw [hw] at h <;> simp at h

theorem C2_validation_error_means_no_bus_write_witness :
    ((⟨(), none, none⟩ : DS4432 Unit).set_status busOk .Zero
        (.SinkMicroAmp (.fin (mkRat 5 1)))).2 = [] :=
  C2_validation_error_means_no_bus_write Unit Unit busOk ⟨(), none, none⟩ .Zero
    (.SinkMicroAmp (.fin (mkRat 5 1))) (Or.inr rfl)

/-- C3: in the current-based `set_status` path with a configured resistor,
the converted code is written without re-validating the `0..127` bound —
the call never returns `InvalidCode`, and a conversion result above 127 is
written with the high (direction) bit set silently; such results occur
(current 1000 µA at 80 kΩ converts to 255). -/
theorem C3_current_path_silent_high_bit :
    (∀ (I E : Type) (impl : I2cImpl I E) (d : DS4432 I) (out : Output) (cur : Fl) (r : ℕ),
      d.rfsFor out = some r →
      (∀ c, (d.set_status impl out (.SinkMicroAmp cur)).1 ≠ .error (.InvalidCode c)
          ∧ (d.set_status impl out (.SourceMicroAmp cur)).1 ≠ .error (.InvalidCode c))
      ∧ (d.set_status impl out (.SinkMicroAmp cur)).2
          = [.write SLAVE_ADDRESS [out.toU8, current_to_code cur r]]
      ∧ (d.set_status impl out (.SourceMicroAmp cur)).2
          = [.write SLAVE_ADDRESS [out.toU8, current_to_code cur r ||| 0x80]]
      ∧ (127 < current_to_code cur r →
          current_to_code cur r &&& 0x80 = 0x80
          ∧ (current_to_code cur r ||| 0x80) &&& 0x80 = 0x80))
    ∧ 127 < current_to_code (.fin (mkRat 1000 1)) 80000
    ∧ current_to_code (.fin (mkRat 1000 1)) 80000 = 255 := by
  constructor
  · intro I E impl d out cur r hr
    have hsk : encodeStatus (E := E) d.rfs0_ohm d.rfs1_ohm out (.SinkMicroAmp cur)
        = .ok (current_to_code cur r) := by
      cases out with
      | Zero => simp only [DS4432.rfsFor] at hr; rw [encodeStatus_SinkMicroAmp, hr]
      | One => simp only [DS4432.rfsFor] at hr; rw [encodeStatus_SinkMicroAmp, hr]
    have hsrc : encodeStatus (E := E) d.rfs0_ohm d.rfs1_ohm out (.SourceMicroAmp cur)
        = .ok (current_to_code cur r ||| 0x80) := by
      cases out with
      | Zero => simp only [DS4432.rfsFor] at hr; rw [encodeStatus_SourceMicroAmp, hr]
      | One => simp only [DS4432.rfsFor] at hr; rw [encodeStatus_SourceMicroAmp, hr]
    refine ⟨?_, ?_, ?_, ?_⟩
    · intro c
      constructor
      · rw [set_status_ok impl d out _ _ hsk]
        rcases impl.write d.i2c SLAVE_ADDRESS [out.toU8, current_to_code cur r]
          with e' | u <;> simp
      · rw [set_status_ok impl d out _ _ hsrc]
        rcases impl.write d.i2c SLAVE_ADDRESS
            [out.toU8, current_to_code cur r ||| 0x80] with e' | u <;> simp
    · rw [set_status_ok impl d out _ _ hsk]
      rcases impl.write d.i2c SLAVE_ADDRESS [out.toU8, current_to_code cur r]
        with e' | u <;> rfl
    · rw [set_status_ok impl d out _ _ hsrc]
      rcases impl.write d.i2c SLAVE_ADDRESS
          [out.toU8, current_to_code cur r ||| 0x80] with e' | u <;> rfl
    · intro h127
      have hbit : ∀ v, v < 256 → 127 < v → v &&& 128 = 128 ∧ (v ||| 128) &&& 128 = 128 := by
        decide
      have hle : current_to_code cur r ≤ 255 :=
        f32AsU8_le_255 (fDiv fmt32 (fMul fmt32 cur (natToF32 r)) const62312_5)
      exact hbit (current_to_code cur r) (by omega) h127
  · exact ⟨by decide, by decide⟩

theorem C3_current_path_silent_high_bit_witness :
    ((⟨(), some 80000, none⟩ : DS4432 Unit).set_status busOk .Zero
        (.SinkMicroAmp (.fin (mkRat 1000 1)))).2
      = [.write SLAVE_ADDRESS [Output.toU8 .Zero, current_to_code (.fin (mkRat 1000 1)) 80000]] :=
  (C3_current_path_silent_high_bit.1 Unit Unit busOk ⟨(), some 80000, none⟩ .Zero
    (.fin (mkRat 1000 1)) 80000 rfl).2.1

/-- C6: `with_rfs` accepts a present resistor value iff it is within
`[40_000, 160_000]` under the strict policy, and iff it is nonzero under
the permissive policy; an absent value is always valid; both channels are
checked and construction fails with `InvalidRfs` if either check fails. -/
theorem C6_rfs_validation :
    ∀ (I E : Type) (i2c : I) (r0 r1 : Option ℕ),
      (DS4432.with_rfs (E := E) .recommended i2c r0 r1 = .ok ⟨i2c, r0, r1⟩
        ↔ ((∀ r, r0 = some r → 40000 ≤ r ∧ r ≤ 160000)
            ∧ (∀ r, r1 = some r → 40000 ≤ r ∧ r ≤ 160000)))
      ∧ (¬((∀ r, r0 = some r → 40000 ≤ r ∧ r ≤ 160000)
            ∧ (∀ r, r1 = some r → 40000 ≤ r ∧ r ≤ 160000)) →
          DS4432.with_rfs (E := E) .recommended i2c r0 r1 = .error .InvalidRfs)
      ∧ (DS4432.with_rfs (E := E) .notRecommended i2c r0 r1 = .ok ⟨i2c, r0, r1⟩
          ↔ ((∀ r, r0 = some r → r ≠ 0) ∧ (∀ r, r1 = some r → r ≠ 0)))
      ∧ (¬((∀ r, r0 = some r → r ≠ 0) ∧ (∀ r, r1 = some r → r ≠ 0)) →
          DS4432.with_rfs (E := E) .notRecommended i2c r0 r1 = .error .InvalidRfs) := by
  intro I E i2c r0 r1
  refine ⟨?_, ?_, ?_, ?_⟩
  · rw [with_rfs_ok_iff, validateRfs_rec_ok, validateRfs_rec_ok]
  · intro h
    refine with_rfs_error _ _ _ _ ?_
    rw [validateRfs_rec_ok, validateRfs_rec_ok]
    exact h
  · rw [with_rfs_ok_iff, validateRfs_perm_ok, validateRfs_perm_ok]
  · intro h
    refine with_rfs_error _ _ _ _ ?_
    rw [validateRfs_perm_ok, validateRfs_perm_ok]
    exact h

theorem C6_rfs_validation_witness :
    DS4432.with_rfs (E := Unit) .recommended () (some 40000) (some 160000)
        = .ok ⟨(), some 40000, some 160000⟩
    ∧ DS4432.with_rfs (E := Unit) .recommended () (some 39999) none
        = .error .InvalidRfs
    ∧ DS4432.with_rfs (E := Unit) .recommended () none (some 160001)
        = .error .InvalidRfs
    ∧ DS4432.with_rfs (E := Unit) .notRecommended () (some 1) (some 0)
        = .error .InvalidRfs := by
  refine ⟨?_, ?_, ?_, ?_⟩
  · exact (C6_rfs_validation Unit Unit () (some 40000) (some 160000)).1.mpr
      (by constructor <;> intro r hr <;> cases Option.some.inj hr <;> omega)
  · exact (C6_rfs_validation Unit Unit () (some 39999) none).2.1
      (by intro h; have := h.1 39999 rfl; omega)
  · exact (C6_rfs_validation Unit Unit () none (some 160001)).2.1
      (by intro h; have := h.2 160001 rfl; omega)
  · exact (C6_rfs_validation Unit Unit () (some 1) (some 0)).2.2.2
      (by intro h; exact h.2 0 rfl rfl)

/-- C7: `status` decodes the byte read from the bus and resolves it against
the channel's configured Rfs: with a resistor, `Sink`/`Source` codes become
`SinkMicroAmp`/`SourceMicroAmp` of `code_to_current`, `Disable` passes
through; without one, the code-based status is returned unchanged. -/
theorem C7_status_resolution :
    ∀ (I E : Type) (impl : I2cImpl I E) (d : DS4432 I) (out : Output) (b : ℕ),
      impl.writeRead d.i2c SLAVE_ADDRESS [out.toU8] = .ok b →
      (d.status impl out).1 = .ok (resolveStatus (d.rfsFor out) (Status.fromU8 b)) := by
  intro I E impl d out b h
  cases out with
  | Zero =>
    cases hr : d.rfs0_ohm with
    | none =>
      simp only [DS4432.status, h, DS4432.rfsFor, hr, resolveStatus]
    | some rfs =>
      simp only [DS4432.status, h, DS4432.rfsFor, hr]
      rcases Status.fromU8 b with _ | c | f | c | f <;> rfl
  | One =>
    cases hr : d.rfs1_ohm with
    | none =>
      simp only [DS4432.status, h, DS4432.rfsFor, hr, resolveStatus]
    | some rfs =>
      simp only [DS4432.status, h, DS4432.rfsFor, hr]
      rcases Status.fromU8 b with _ | c | f | c | f <;> rfl

theorem C7_status_resolution_witness :
    ((⟨(), some 80000, none⟩ : DS4432 Unit).status busOk .Zero).1
      = .ok (resolveStatus ((⟨(), some 80000, none⟩ : DS4432 Unit).rfsFor .Zero)
          (Status.fromU8 0xAA)) :=
  C7_status_resolution Unit Unit busOk ⟨(), some 80000, none⟩ .Zero 0xAA rfl

/-- C8 counterexample: at current 1000 µA and Rfs 80 kΩ the binary32
quotient is 164333/128 ≈ 1283.85, whose truncation toward zero is 1283,
yet the byte written is the saturated 255; and `code_to_current(0, 0)`
is NaN (0.0/0.0), not 0.0 — so the claim's unqualified "truncated toward
zero" and "for every r" both fail. -/
theorem C8_conversion_counterexample :
    ((⟨(), some 80000, none⟩ : DS4432 Unit).set_status busOk .Zero
        (.SinkMicroAmp (.fin (mkRat 1000 1)))).2
      = [.write SLAVE_ADDRESS [0xF8, 255]]
    ∧ fDiv fmt32 (fMul fmt32 (.fin (mkRat 1000 1)) (natToF32 80000)) const62312_5
        = .fin (mkRat 164333 128)
    ∧ ftrunc (mkRat 164333 128) = 1283
    ∧ (255 : ℤ) ≠ 1283
    ∧ Status.current_ua .Disable 0 = some .nan
    ∧ Fl.nan ≠ .fin 0 := by
  exact ⟨by decide, by decide, by decide, by decide, by decide, by decide⟩

/-- C8 (amended): `current_to_code(32.71406, 80_000) = 42` exactly; the code
a current-based `set_status` writes is `current_to_code` of the request,
which truncates the binary32 quotient toward zero whenever that truncation
lies in `0..=255` (saturating otherwise); `code_to_current(42, 80_000)`
is exactly the binary32 value of `32.71406`; and `code_to_current(0, r) =
0.0` for every nonzero `r`. -/
theorem C8_conversion_amended :
    current_to_code (f32Lit (mkRat 3271406 100000)) 80000 = 42
    ∧ (∀ (I E : Type) (impl : I2cImpl I E) (d : DS4432 I) (out : Output) (cur : Fl) (r : ℕ),
        d.rfsFor out = some r →
        (d.set_status impl out (.SinkMicroAmp cur)).2
          = [.write SLAVE_ADDRESS [out.toU8, current_to_code cur r]])
    ∧ (∀ q : ℚ, 0 ≤ ftrunc q → ftrunc q ≤ 255 → f32AsU8 (.fin q) = (ftrunc q).toNat)
    ∧ code_to_current 42 80000 = f32Lit (mkRat 3271406 100000)
    ∧ (∀ r : ℕ, r ≠ 0 → code_to_current 0 r = .fin 0) := by
  refine ⟨by decide, ?_, ?_, by decide, ?_⟩
  · intro I E impl d out cur r hr
    have hsk : encodeStatus (E := E) d.rfs0_ohm d.rfs1_ohm out (.SinkMicroAmp cur)
        = .ok (current_to_code cur r) := by
      cases out with
      | Zero => simp only [DS4432.rfsFor] at hr; rw [encodeStatus_SinkMicroAmp, hr]
      | One => simp only [DS4432.rfsFor] at hr; rw [encodeStatus_SinkMicroAmp, hr]
    rw [set_status_ok impl d out _ _ hsk]
    rcases impl.write d.i2c SLAVE_ADDRESS [out.toU8, current_to_code cur r]
      with e' | u <;> rfl
  · intro q h0 h255
    by_cases hneg : q < 0
    · have hfl : (0 : ℤ) ≤ ⌊-q⌋ := Int.floor_nonneg.mpr (by linarith)
      rw [ftrunc, if_pos hneg] at h0 ⊢
      have : ⌊-q⌋ = 0 := by omega
      simp [f32AsU8, le_of_lt hneg, this]
    · rw [ftrunc, if_neg hneg] at h0 h255 ⊢
      by_cases hq0 : q ≤ 0
      · have hq : q = 0 := le_antisymm hq0 (not_lt.mp hneg)
        subst hq
        simp [f32AsU8]
      · simp only [f32AsU8, if_neg hq0]
        omega
  · intro r hr
    have hb : (mkRat ((r : ℕ) : ℤ) 1 : ℚ) ≠ 0 := by
      rw [Rat.mkRat_one]
      exact_mod_cast Int.natCast_ne_zero.mpr hr
    have h00 : (mkRat ((0 : ℕ) : ℤ) 1 : ℚ) = 0 := by
      rw [Rat.mkRat_one]; norm_num
    show f64ToF32 (fDiv fmt64 (fMul fmt64 (.fin (mkRat 124625 2)) (.fin (mkRat ((0:ℕ) : ℤ) 1)))
        (.fin (mkRat ((r : ℕ) : ℤ) 1))) = .fin 0
    rw [show fMul fmt64 (Fl.fin (mkRat 124625 2)) (Fl.fin (mkRat ((0:ℕ) : ℤ) 1))
        = roundFin fmt64 (qmul (mkRat 124625 2) (mkRat ((0:ℕ) : ℤ) 1)) from rfl]
    rw [show qmul (mkRat 124625 2) (mkRat ((0:ℕ) : ℤ) 1) = 0 from by
      rw [qmul_eq_mul, h00, mul_zero]]
    rw [roundFin_zero]
    rw [show fDiv fmt64 (Fl.fin 0) (Fl.fin (mkRat ((r:ℕ) : ℤ) 1))
        = roundFin fmt64 (qdiv 0 (mkRat ((r:ℕ) : ℤ) 1)) from by
      simp only [fDiv, if_neg hb]]
    rw [show qdiv 0 (mkRat ((r:ℕ) : ℤ) 1) = 0 from by rw [qdiv_eq_div, zero_div]]
    rw [roundFin_zero]
    show roundFin fmt32 0 = Fl.fin 0
    exact roundFin_zero fmt32

theorem C8_conversion_amended_witness :
    ((⟨(), some 80000, none⟩ : DS4432 Unit).set_status busOk .Zero
        (.SinkMicroAmp (.fin (mkRat 1000 1)))).2
      = [.write SLAVE_ADDRESS [Output.toU8 .Zero, current_to_code (.fin (mkRat 1000 1)) 80000]]
    ∧ f32AsU8 (.fin (mkRat 7 2)) = (ftrunc (mkRat 7 2)).toNat
    ∧ code_to_current 0 80000 = .fin 0 :=
  ⟨C8_conversion_amended.2.1 Unit Unit busOk ⟨(), some 80000, none⟩ .Zero
      (.fin (mkRat 1000 1)) 80000 rfl,
    C8_conversion_amended.2.2.1 (mkRat 7 2) (by decide) (by decide),
    C8_conversion_amended.2.2.2.2 80000 (by decide)⟩

/-- C9: totality and panic-freedom — `with_rfs(bus, None, None)` always
succeeds (so the `unwrap` in `new` cannot panic), `current_ua` returns
`Some` for every `Disable`/`Sink`/`Source` status (so the `unwrap`s in
`status` cannot panic), and the `as u8` casts saturate: 0 for NaN or
negative values, 255 for values at or above 255 (and for positive
infinity). -/
theorem C9_totality_panic_freedom :
    (∀ (I : Type) (policy : RfsPolicy) (i2c : I),
        DS4432.with_rfs (E := Unit) policy i2c none none = .ok ⟨i2c, none, none⟩)
    ∧ (∀ (I : Type) (policy : RfsPolicy) (i2c : I),
        DS4432.new policy i2c = ⟨i2c, none, none⟩)
    ∧ (∀ (c r : ℕ), ((Status.Sink c).current_ua r).isSome = true
        ∧ ((Status.Source c).current_ua r).isSome = true
        ∧ (Status.Disable.current_ua r).isSome = true)
    ∧ f32AsU8 .nan = 0
    ∧ (∀ q : ℚ, q < 0 → f32AsU8 (.fin q) = 0)
    ∧ (∀ q : ℚ, 255 ≤ q → f32AsU8 (.fin q) = 255)
    ∧ (∀ s, f32AsU8 (.inf s) = if s then 0 else 255) := by
  refine ⟨fun I policy i2c => rfl, fun I policy i2c => rfl,
    fun c r => ⟨rfl, rfl, rfl⟩, rfl, ?_, ?_, fun s => rfl⟩
  · intro q hq
    simp [f32AsU8, le_of_lt hq]
  · intro q hq
    have h0 : ¬ q ≤ 0 := not_le.mpr (by linarith)
    have hf : (255 : ℤ) ≤ ⌊q⌋ := Int.le_floor.mpr (by exact_mod_cast hq)
    simp only [f32AsU8, if_neg h0]
    omega

theorem C9_totality_panic_freedom_witness :
    f32AsU8 (.fin (mkRat (-5) 1)) = 0 ∧ f32AsU8 (.fin (mkRat 300 1)) = 255 :=
  ⟨C9_totality_panic_freedom.2.2.2.2.1 (mkRat (-5) 1) (by decide),
    C9_totality_panic_freedom.2.2.2.2.2.1 (mkRat 300 1) (by decide)⟩

/-- C10: `release` returns exactly the bus handle supplied at construction
(whether through `with_rfs` or `new`), while `destroy` returns the whole
session value unchanged — not the underlying bus handle, despite its
documentation. -/
theorem C10_release_destroy :
    (∀ (I E : Type) (policy : RfsPolicy) (i2c : I) (r0 r1 : Option ℕ) (d : DS4432 I),
        DS4432.with_rfs (E := E) policy i2c r0 r1 = .ok d →
        d.release = i2c ∧ d.rfs0_ohm = r0 ∧ d.rfs1_ohm = r1)
    ∧ (∀ (I : Type) (policy : RfsPolicy) (i2c : I), (DS4432.new policy i2c).release = i2c)
    ∧ (∀ (I : Type) (d : DS4432 I), d.destroy = d ∧ d.destroy.release = d.i2c) := by
  refine ⟨?_, fun I policy i2c => rfl, fun I d => ⟨rfl, rfl⟩⟩
  intro I E policy i2c r0 r1 d h
  rcases hv0 : validateRfs (E := E) policy r0 with e | u
  · rw [DS4432.with_rfs, hv0] at h
    simp at h
  · rcases hv1 : validateRfs (E := E) policy r1 with e | u'
    · rw [DS4432.with_rfs, hv0, hv1] at h
      simp at h
    · rw [DS4432.with_rfs, hv0, hv1] at h
      simp only [Except.ok.injEq] at h
      subst h
      exact ⟨rfl, rfl, rfl⟩

theorem C10_release_destroy_witness :
    (⟨(), some 80000, none⟩ : DS4432 Unit).release = ()
    ∧ (⟨(), some 80000, none⟩ : DS4432 Unit).rfs0_ohm = some 80000 :=
  ⟨(C10_release_destroy.1 Unit Unit .recommended () (some 80000) none
      ⟨(), some 80000, none⟩ rfl).1,
    (C10_release_destroy.1 Unit Unit .recommended () (some 80000) none
      ⟨(), some 80000, none⟩ rfl).2.1⟩
